import Mathlib

/-!
Verification development for the joomla6-coder-mcp indexing core.

This file gives a shallow embedding, in Lean 4, of the pure indexing and
query functions of the repository:

* `src/parser/sql-schema-parser.ts` — `SqlSchemaParser.parseSql`,
  `splitTableBody`, `parseColumn`, `parseIndex`, `parseIndexColumns`, and the
  `tableMap` construction of `parseDirectory`;
* `src/tools/schema.ts` — `lookupSchema`;
* `src/parser/index-builder.ts` — `IndexBuilder.buildEventMap`;
* `src/tools/list-events.ts` — `listEvents`;
* `src/tools/search.ts` — `search`;
* `src/tools/lookup-class.ts` — `lookupClass` and `levenshteinDistance`;
* `src/tools/response-utils.ts` — `truncateResponse`.

Strings are modelled by Lean `String` (a wrapper around `List Char`); the
inputs relevant to the claims are ASCII, where JavaScript's UTF-16 code-unit
`length`, `toLowerCase`, `toUpperCase` and Lean's character-based operations
agree.  JavaScript regular expressions used by the source are translated into
explicit character scanners; each scanner carries a comment naming the regex
it embeds and the backtracking behaviour it reproduces.
-/

set_option maxRecDepth 20000

/-- ASCII lower-casing of one character; agrees with JavaScript
`String.prototype.toLowerCase` on ASCII input. -/
def asciiLower (c : Char) : Char :=
  if 'A' ≤ c ∧ c ≤ 'Z' then Char.ofNat (c.toNat + 32) else c

/-- ASCII upper-casing of one character; agrees with JavaScript
`String.prototype.toUpperCase` on ASCII input. -/
def asciiUpper (c : Char) : Char :=
  if 'a' ≤ c ∧ c ≤ 'z' then Char.ofNat (c.toNat - 32) else c

/-- JavaScript `s.toLowerCase()` restricted to ASCII. -/
def lowerStr (s : String) : String := ⟨s.data.map asciiLower⟩

/-- JavaScript `s.toUpperCase()` restricted to ASCII. -/
def upperStr (s : String) : String := ⟨s.data.map asciiUpper⟩

/-- Whitespace class used by JavaScript's `\s` and `String.prototype.trim`,
restricted to the characters that occur in the repository's inputs. -/
def jsIsSpace (c : Char) : Bool :=
  c == ' ' || c == '\t' || c == '\n' || c == '\r' ||
  c == Char.ofNat 11 || c == Char.ofNat 12 || c == Char.ofNat 160

/-- JavaScript `String.prototype.trim` on a character list. -/
def trimL (cs : List Char) : List Char :=
  ((cs.dropWhile jsIsSpace).reverse.dropWhile jsIsSpace).reverse

/-- JavaScript `String.prototype.trim`. -/
def trimStr (s : String) : String := ⟨trimL s.data⟩

/-- First-list-starts-with-second test on character lists. -/
def startsWithL : List Char → List Char → Bool
  | _, [] => true
  | [], _ :: _ => false
  | a :: as, b :: bs => a == b && startsWithL as bs

/-- Substring occurrence test on character lists: JavaScript
`hay.includes(needle)`. -/
def containsL : List Char → List Char → Bool
  | [], needle => needle.isEmpty
  | hay@(_ :: rest), needle => startsWithL hay needle || containsL rest needle

/-- JavaScript `hay.includes(needle)`. -/
def jsIncludes (hay needle : String) : Bool := containsL hay.data needle.data

/-- JavaScript `hay.startsWith(pre)`. -/
def jsStartsWith (hay pre : String) : Bool := startsWithL hay.data pre.data

/-- JavaScript `hay.endsWith(suf)`. -/
def jsEndsWith (hay suf : String) : Bool :=
  startsWithL hay.data.reverse suf.data.reverse

/-- Word-character class of the JavaScript regex token `\w`. -/
def isWordChar (c : Char) : Bool :=
  ('a' ≤ c && c ≤ 'z') || ('A' ≤ c && c ≤ 'Z') || ('0' ≤ c && c ≤ '9') || c == '_'

/-- Digit class of the JavaScript regex token `\d`. -/
def isDigitChar (c : Char) : Bool := '0' ≤ c && c ≤ '9'

/-- Case-insensitive literal match (regex `i` flag): consume `pat` from the
front of `s` and return the rest, or fail. -/
def matchCI : List Char → List Char → Option (List Char)
  | [], s => some s
  | _ :: _, [] => none
  | p :: ps, c :: cs => if asciiLower p == asciiLower c then matchCI ps cs else none

/-- Regex `\s+`: require at least one whitespace character and consume the
maximal whitespace run. -/
def matchSpaces1 : List Char → Option (List Char)
  | [] => none
  | c :: cs => if jsIsSpace c then some (cs.dropWhile jsIsSpace) else none

/-- Regex `\s*`: consume the maximal whitespace run. -/
def skipSpaces (s : List Char) : List Char := s.dropWhile jsIsSpace

/-- Consume a single expected character. -/
def matchChar (c : Char) : List Char → Option (List Char)
  | [] => none
  | x :: xs => if x == c then some xs else none

/-- Position-preserving last-write-wins insertion shared by JavaScript plain
objects (`map[key] = value`) and `Map.prototype.set`: an existing key keeps
its position in insertion order and gets the new value, a new key is appended.
The association list models the object's (or Map's) ordered entries. -/
def recordSet {α : Type} (m : List (String × α)) (k : String) (v : α) :
    List (String × α) :=
  if m.any (fun kv => kv.1 == k) then
    m.map (fun kv => if kv.1 == k then (k, v) else kv)
  else m ++ [(k, v)]

/-- Lookup of a key in the ordered-entries model of a JavaScript object
(`map[key]` on a plain object) or of `Map.prototype.get`. -/
def recordGet {α : Type} (m : List (String × α)) (k : String) : Option α :=
  (m.find? (fun kv => kv.1 == k)).map (·.2)

/-- JavaScript `Object.values` on the ordered-entries model of an object. -/
def objectValues {α : Type} (m : List (String × α)) : List α := m.map (·.2)

/-! ## SQL schema parser (`src/parser/sql-schema-parser.ts`) -/

/-- Column record of `sql-schema-parser.ts` (`ColumnDefinition`). -/
structure ColumnDefinition where
  name : String
  type : String
  nullable : Bool
  defaultValue : Option String
  autoIncrement : Bool
  comment : Option String
deriving DecidableEq, Repr

/-- Index kind of `sql-schema-parser.ts` (`IndexDefinition.type`, the string
union `'PRIMARY' | 'UNIQUE' | 'INDEX' | 'FULLTEXT'`). -/
inductive IndexType where
  | PRIMARY
  | UNIQUE
  | INDEX
  | FULLTEXT
deriving DecidableEq, Repr

/-- Index record of `sql-schema-parser.ts` (`IndexDefinition`). -/
structure IndexDefinition where
  name : String
  type : IndexType
  columns : List String
deriving DecidableEq, Repr

/-- Table record of `sql-schema-parser.ts` (`TableSchema`). -/
structure TableSchema where
  name : String
  shortName : String
  columns : List ColumnDefinition
  indexes : List IndexDefinition
  engine : Option String
  charset : Option String
  comment : Option String
deriving DecidableEq, Repr

/-- Schema aggregate of `sql-schema-parser.ts` (`SchemaIndex`).  The source
declares `tableMap: Map<string, TableSchema>`; the field here is the Map's
ordered entry list as produced by the `tableMap.set` loop of
`parseDirectory`. -/
structure SchemaIndex where
  tables : List TableSchema
  tableMap : List (String × TableSchema)
deriving DecidableEq, Repr

namespace SqlSchemaParser

/-- Embedding of `tableName.replace(/^#__/, '')` (line 84 of
`sql-schema-parser.ts` and line 76 of `schema.ts`): strip one leading
table-prefix placeholder if present. -/
def stripTablePrefix (s : String) : String :=
  if jsStartsWith s "#__" then ⟨s.data.drop 3⟩ else s

/-- Scanner for the group `(?:[^;]*);` that ends the CREATE TABLE regex:
`[^;]*` greedily takes the maximal semicolon-free run and the literal `;`
must follow (shorter runs stop at a non-semicolon character, so regex
backtracking cannot produce any other outcome). -/
def matchSuffixSemi (s : List Char) : Option (List Char × List Char) :=
  let suffix := s.takeWhile (fun c => !(c == ';'))
  match s.drop suffix.length with
  | ';' :: rest => some (suffix, rest)
  | _ => none

/-- Scanner for the lazy body group `([\s\S]*?)\)` followed by `([^;]*);` in
the CREATE TABLE regex of `parseSql` (line 76).  The lazy group grows one
character at a time, so the engine stops at the first `)` after which the
tail `([^;]*);` succeeds; if the tail fails there (no later semicolon), the
`)` is absorbed into the body and scanning continues.  `acc` holds the body
read so far, reversed.  Returns `(body, suffix, rest-after-semicolon)`. -/
def lazyBodyScan : List Char → List Char → Option (List Char × List Char × List Char)
  | _, [] => none
  | acc, ')' :: rest =>
    match matchSuffixSemi rest with
    | some (suffix, rest') => some (acc.reverse, suffix, rest')
    | none => lazyBodyScan (')' :: acc) rest
  | acc, c :: rest => lazyBodyScan (c :: acc) rest

/-- Scanner for the optional group `(?:IF\s+NOT\s+EXISTS\s+)?`. -/
def matchIfNotExists (s : List Char) : Option (List Char) := do
  let s ← matchCI "IF".data s
  let s ← matchSpaces1 s
  let s ← matchCI "NOT".data s
  let s ← matchSpaces1 s
  let s ← matchCI "EXISTS".data s
  matchSpaces1 s

/-- Scanner for the table-name part `` `?([^`\s(]+)`? `` followed by `\s*\(`:
the optional backticks are forced (a present backtick cannot start the name
class, and the name class stops before a backtick), so no backtracking over
them can change the outcome.  Returns the captured name and the rest after
the opening parenthesis. -/
def matchTableName (s : List Char) : Option (List Char × List Char) := do
  let s := ((matchChar '`' s).getD s)
  let name := s.takeWhile (fun c => !(c == '`' || jsIsSpace c || c == '('))
  if name.isEmpty then none else
  let s := s.drop name.length
  let s := ((matchChar '`' s).getD s)
  let s := skipSpaces s
  let s ← matchChar '(' s
  some (name, s)

/-- Attempt of the whole regex
``CREATE\s+TABLE\s+(?:IF\s+NOT\s+EXISTS\s+)?`?([^`\s(]+)`?\s*\(([\s\S]*?)\)([^;]*);``
(case-insensitive) anchored at the current position.  The optional
`IF NOT EXISTS` group is greedy; when it matches, the skipped alternative
cannot also succeed (the name would capture `IF` and the following `\s*\(`
would have to find a parenthesis where `NOT` stands), so taking it when it
matches is exactly the regex behaviour.  Returns the three captured groups
and the rest of the input after the terminating semicolon. -/
def matchCreateTableAt (s : List Char) :
    Option (List Char × List Char × List Char × List Char) := do
  let s ← matchCI "CREATE".data s
  let s ← matchSpaces1 s
  let s ← matchCI "TABLE".data s
  let s ← matchSpaces1 s
  let s := ((matchIfNotExists s).getD s)
  let (name, s) ← matchTableName s
  let (body, suffix, rest) ← lazyBodyScan [] s
  some (name, body, suffix, rest)

/-- Global scan of `createTableRegex.exec` in a `while` loop: attempt the
pattern at each successive position, and resume after the end of each match.
`fuel` bounds the recursion; each step consumes at least one character, so
`s.length` fuel is enough. -/
def findCreateTablesAux : Nat → List Char → List (List Char × List Char × List Char)
  | 0, _ => []
  | _ + 1, [] => []
  | fuel + 1, s@(_ :: rest) =>
    match matchCreateTableAt s with
    | some (name, body, suffix, rest') =>
      (name, body, suffix) :: findCreateTablesAux fuel rest'
    | none => findCreateTablesAux fuel rest

/-- All matches of `createTableRegex` over the content, in order. -/
def findCreateTables (s : List Char) : List (List Char × List Char × List Char) :=
  findCreateTablesAux s.length s

/-- Loop body of `splitTableBody` (lines 127–145): split at top-level commas
tracking parenthesis depth; every other character, parentheses included, is
appended to the current part. -/
def splitTableBodyAux : List Char → Int → List Char → List (List Char) → List (List Char)
  | [], _, current, parts =>
    (if (trimL current.reverse).isEmpty then parts else current.reverse :: parts).reverse
  | c :: rest, depth, current, parts =>
    if c == '(' then splitTableBodyAux rest (depth + 1) (c :: current) parts
    else if c == ')' then splitTableBodyAux rest (depth - 1) (c :: current) parts
    else if c == ',' && depth == 0 then splitTableBodyAux rest depth [] (current.reverse :: parts)
    else splitTableBodyAux rest depth (c :: current) parts

/-- Embedding of `splitTableBody` (lines 127–145). -/
def splitTableBody (body : List Char) : List (List Char) :=
  splitTableBodyAux body 0 [] []

/-- Scanner for `NOT\s+NULL` (case-insensitive, unanchored), the test on line
159: `\s+` takes the maximal whitespace run, after which `NULL` must follow
(`NULL` starts with a non-space character, so regex backtracking over `\s+`
cannot succeed anywhere else). -/
def hasNotNull : List Char → Bool
  | [] => false
  | s@(_ :: rest) =>
    (match matchCI "NOT".data s with
     | some s1 => ((matchSpaces1 s1).bind (matchCI "NULL".data)).isSome
     | none => false) || hasNotNull rest

/-- Case-insensitive unanchored literal search, e.g. the `AUTO_INCREMENT`
test on line 160. -/
def hasCISub (pat : String) : List Char → Bool
  | [] => pat.data.isEmpty
  | s@(_ :: rest) => (matchCI pat.data s).isSome || hasCISub pat rest

/-- Scanner for the quoted alternative `'(?:[^'\\]|\\.)*'` of the DEFAULT
regex (line 163), quotes included in the capture.  The two repetition
alternatives are disjoint (the class excludes the backslash), so the scan is
deterministic; the regex `.` does not match a newline. -/
def quotedEscAux : List Char → List Char → Option (List Char × List Char)
  | _, [] => none
  | acc, '\'' :: rest => some (('\'' :: acc).reverse, rest)
  | acc, '\\' :: c :: rest =>
    if c == '\n' then none else quotedEscAux (c :: '\\' :: acc) rest
  | _, ['\\'] => none
  | acc, c :: rest => quotedEscAux (c :: acc) rest

/-- Quoted-string alternative of the DEFAULT regex, anchored at the current
position. -/
def matchQuotedEsc : List Char → Option (List Char × List Char)
  | '\'' :: rest => quotedEscAux ['\''] rest
  | _ => none

/-- Attempt, anchored at the current position, of the DEFAULT regex of
`parseColumn` (line 163):
`DEFAULT\s+('(?:[^'\\]|\\.)*'|NULL|\d+(?:\.\d+)?|CURRENT_TIMESTAMP(?:\(\))?)`
(case-insensitive).  Returns the first capture group; the alternatives are
tried in source order, and a capture reproduces the original text (not a
canonical case). -/
def matchDefaultValueAt (s : List Char) : Option (List Char) := do
  let s1 ← matchCI "DEFAULT".data s
  let s2 ← matchSpaces1 s1
  match matchQuotedEsc s2 with
  | some (captured, _) => some captured
  | none =>
  match matchCI "NULL".data s2 with
  | some _ => some (s2.take 4)
  | none =>
  let digits := s2.takeWhile isDigitChar
  if !digits.isEmpty then
    let r := s2.drop digits.length
    match r with
    | '.' :: r' =>
      let frac := r'.takeWhile isDigitChar
      if frac.isEmpty then some digits
      else some (digits ++ '.' :: frac)
    | _ => some digits
  else
  match matchCI "CURRENT_TIMESTAMP".data s2 with
  | some r =>
    match r with
    | '(' :: ')' :: _ => some (s2.take 19)
    | _ => some (s2.take 17)
  | none => none

/-- Unanchored scan of the DEFAULT regex: the engine advances one character
at a time, also past a `DEFAULT` whose value alternatives failed. -/
def scanDefault : List Char → Option (List Char)
  | [] => none
  | s@(_ :: rest) => (matchDefaultValueAt s) <|> scanDefault rest

/-- Attempt, anchored at the current position, of the column COMMENT regex
`COMMENT\s+'([^']*)'` (line 169, case-insensitive); returns the capture
(the text between the quotes). -/
def matchColCommentAt (s : List Char) : Option (List Char) := do
  let s1 ← matchCI "COMMENT".data s
  let s2 ← matchSpaces1 s1
  let s3 ← matchChar '\'' s2
  let inner := s3.takeWhile (fun c => !(c == '\''))
  match s3.drop inner.length with
  | '\'' :: _ => some inner
  | _ => none

/-- Unanchored scan of the column COMMENT regex. -/
def scanColComment : List Char → Option (List Char)
  | [] => none
  | s@(_ :: rest) => (matchColCommentAt s) <|> scanColComment rest

/-- Scanner for the head of the column regex (line 149)
`^`?(\w+)`?\s+(\w+(?:\([^)]*\))?(?:\s+(?:unsigned|signed))?)` —
returns the two captures (name, type).  The optional backticks are forced
(a backtick can neither start nor continue `\w+`); the optional
`\([^)]*\)` group succeeds exactly when a `)` follows the run of
non-`)` characters, and the optional `\s+(?:unsigned|signed)` group is
greedy with nothing after it, so its success stands.  The type capture
reproduces the exact matched text, inner whitespace included. -/
def matchColumnHead (s : List Char) : Option (List Char × List Char) := do
  let s1 := ((matchChar '`' s).getD s)
  let nm := s1.takeWhile isWordChar
  if nm.isEmpty then none else
  let r1 := s1.drop nm.length
  let r2 := ((matchChar '`' r1).getD r1)
  let r3 ← matchSpaces1 r2
  let tw := r3.takeWhile isWordChar
  if tw.isEmpty then none else
  let r4 := r3.drop tw.length
  let (parenPart, r5) :=
    match r4 with
    | '(' :: inside =>
      let inner := inside.takeWhile (fun c => !(c == ')'))
      match inside.drop inner.length with
      | ')' :: rest => ('(' :: inner ++ [')'], rest)
      | _ => ([], r4)
    | _ => ([], r4)
  let signedPart :=
    let w := r5.takeWhile jsIsSpace
    if w.isEmpty then []
    else
      let afterW := r5.drop w.length
      if (matchCI "unsigned".data afterW).isSome then w ++ afterW.take 8
      else if (matchCI "signed".data afterW).isSome then w ++ afterW.take 6
      else []
  some (nm, tw ++ parenPart ++ signedPart)

/-- Reserved leading tokens rejected by `parseColumn` (line 156). -/
def KEYWORDS : List String :=
  ["PRIMARY", "KEY", "INDEX", "UNIQUE", "FULLTEXT", "CONSTRAINT", "FOREIGN", "CHECK"]

/-- Embedding of `parseColumn` (lines 147–175). -/
def parseColumn (definition : List Char) : Option ColumnDefinition :=
  match matchColumnHead definition with
  | none => none
  | some (nm, ty) =>
    if KEYWORDS.contains (upperStr ⟨nm⟩) then none
    else some {
      name := ⟨nm⟩
      type := ⟨ty⟩
      nullable := !(hasNotNull definition)
      defaultValue := (scanDefault definition).map (fun cs => (⟨cs⟩ : String))
      autoIncrement := hasCISub "AUTO_INCREMENT" definition
      comment := (scanColComment definition).map (fun cs => (⟨cs⟩ : String)) }

/-- Scanner for `\s*\(([^)]+)\)` at the end of each index regex: the capture
is the maximal nonempty run of non-`)` characters, which the closing `)`
must follow. -/
def matchParenCols (s : List Char) : Option (List Char) := do
  let s1 := skipSpaces s
  let s2 ← matchChar '(' s1
  let inner := s2.takeWhile (fun c => !(c == ')'))
  if inner.isEmpty then none else
  match s2.drop inner.length with
  | ')' :: _ => some inner
  | _ => none

/-- Scanner for `` `?(\w+)`? `` in the index regexes; both backticks are
forced as in `matchColumnHead`. -/
def matchIndexName (s : List Char) : Option (List Char × List Char) :=
  let s1 := ((matchChar '`' s).getD s)
  let nm := s1.takeWhile isWordChar
  if nm.isEmpty then none
  else
    let r := s1.drop nm.length
    some (nm, ((matchChar '`' r).getD r))

/-- Embedding of `parseIndexColumns` (lines 221–226): split the capture on
every comma, trim, delete all backticks, delete the first occurrence of a
`\(\d+\)` size qualifier, and drop empty strings. -/
def sizeQualAt : List Char → Option (List Char)
  | '(' :: rest =>
    let ds := rest.takeWhile isDigitChar
    if ds.isEmpty then none
    else match rest.drop ds.length with
      | ')' :: after => some after
      | _ => none
  | _ => none

/-- Deletion of the first `\(\d+\)` occurrence (the `replace` on line 224
has no `g` flag); the remainder is kept verbatim. -/
def stripSizeQual : List Char → List Char
  | [] => []
  | s@(c :: rest) =>
    match sizeQualAt s with
    | some after => after
    | none => c :: stripSizeQual rest

/-- JavaScript `String.prototype.split(',')`, empty pieces included. -/
def splitCommaAux : List Char → List Char → List (List Char) → List (List Char)
  | [], cur, acc => (cur.reverse :: acc).reverse
  | ',' :: rest, cur, acc => splitCommaAux rest [] (cur.reverse :: acc)
  | c :: rest, cur, acc => splitCommaAux rest (c :: cur) acc

/-- Embedding of `parseIndexColumns` (lines 221–226). -/
def parseIndexColumns (columnList : List Char) : List String :=
  (((splitCommaAux columnList [] []).map
      (fun c => stripSizeQual ((trimL c).filter (fun ch => !(ch == '`'))))).map
    (fun cs => (⟨cs⟩ : String))).filter (fun s => !s.isEmpty)

/-- Embedding of `parseIndex` (lines 177–219): the four anchored regexes
`^PRIMARY\s+KEY\s*\(([^)]+)\)`, `^UNIQUE\s+(?:KEY|INDEX)\s+...`,
`^FULLTEXT\s+(?:KEY|INDEX)\s+...`, `^(?:KEY|INDEX)\s+...` are tried in
source order (all case-insensitive). -/
def parseIndex (definition : List Char) : Option IndexDefinition :=
  (do
    let s ← matchCI "PRIMARY".data definition
    let s ← matchSpaces1 s
    let s ← matchCI "KEY".data s
    let inner ← matchParenCols s
    some { name := "PRIMARY", type := IndexType.PRIMARY,
           columns := parseIndexColumns inner }) <|>
  (do
    let s ← matchCI "UNIQUE".data definition
    let s ← matchSpaces1 s
    let s ← (matchCI "KEY".data s) <|> (matchCI "INDEX".data s)
    let s ← matchSpaces1 s
    let (nm, s) ← matchIndexName s
    let inner ← matchParenCols s
    some { name := (⟨nm⟩ : String), type := IndexType.UNIQUE,
           columns := parseIndexColumns inner }) <|>
  (do
    let s ← matchCI "FULLTEXT".data definition
    let s ← matchSpaces1 s
    let s ← (matchCI "KEY".data s) <|> (matchCI "INDEX".data s)
    let s ← matchSpaces1 s
    let (nm, s) ← matchIndexName s
    let inner ← matchParenCols s
    some { name := (⟨nm⟩ : String), type := IndexType.FULLTEXT,
           columns := parseIndexColumns inner }) <|>
  (do
    let s ← (matchCI "KEY".data definition) <|> (matchCI "INDEX".data definition)
    let s ← matchSpaces1 s
    let (nm, s) ← matchIndexName s
    let inner ← matchParenCols s
    some { name := (⟨nm⟩ : String), type := IndexType.INDEX,
           columns := parseIndexColumns inner })

/-- Loop body of `parseSql` over the split parts (lines 92–106): empty parts
are skipped, index parts are tried first, then column parts; source order is
preserved in both output lists. -/
def collectParts : List (List Char) → List ColumnDefinition × List IndexDefinition
  | [] => ([], [])
  | p :: ps =>
    let t := trimL p
    let (cs, is) := collectParts ps
    if t.isEmpty then (cs, is)
    else
      match parseIndex t with
      | some i => (cs, i :: is)
      | none =>
        match parseColumn t with
        | some c => (c :: cs, is)
        | none => (cs, is)

/-- Unanchored scan of the suffix regex `ENGINE\s*=\s*(\w+)` (line 109,
case-insensitive). -/
def matchEngineAt (s : List Char) : Option (List Char) := do
  let s1 ← matchCI "ENGINE".data s
  let s2 ← matchChar '=' (skipSpaces s1)
  let w := (skipSpaces s2).takeWhile isWordChar
  if w.isEmpty then none else some w

/-- Scan loop for the ENGINE suffix regex. -/
def scanEngine : List Char → Option (List Char)
  | [] => none
  | s@(_ :: rest) => (matchEngineAt s) <|> scanEngine rest

/-- Unanchored scan of the suffix regex `(?:DEFAULT\s+)?CHARSET\s*=\s*(\w+)`
(line 110, case-insensitive).  The optional `DEFAULT\s+` prefix only moves
the match start, never the capture, so the scan looks for the
`CHARSET\s*=\s*(\w+)` core. -/
def matchCharsetAt (s : List Char) : Option (List Char) := do
  let s1 ← matchCI "CHARSET".data s
  let s2 ← matchChar '=' (skipSpaces s1)
  let w := (skipSpaces s2).takeWhile isWordChar
  if w.isEmpty then none else some w

/-- Scan loop for the CHARSET suffix regex. -/
def scanCharset : List Char → Option (List Char)
  | [] => none
  | s@(_ :: rest) => (matchCharsetAt s) <|> scanCharset rest

/-- Unanchored scan of the suffix regex `COMMENT\s*=\s*'([^']*)'` (line 111,
case-insensitive). -/
def matchTableCommentAt (s : List Char) : Option (List Char) := do
  let s1 ← matchCI "COMMENT".data s
  let s2 ← matchChar '=' (skipSpaces s1)
  let s3 ← matchChar '\'' (skipSpaces s2)
  let inner := s3.takeWhile (fun c => !(c == '\''))
  match s3.drop inner.length with
  | '\'' :: _ => some inner
  | _ => none

/-- Scan loop for the table COMMENT suffix regex. -/
def scanTableComment : List Char → Option (List Char)
  | [] => none
  | s@(_ :: rest) => (matchTableCommentAt s) <|> scanTableComment rest

/-- Embedding of `parseSql` (lines 72–125). -/
def parseSql (content : String) : List TableSchema :=
  (findCreateTables content.data).map (fun m =>
    let tableName : String := ⟨m.1⟩
    let (columns, indexes) := collectParts (splitTableBody m.2.1)
    { name := tableName
      shortName := stripTablePrefix tableName
      columns := columns
      indexes := indexes
      engine := (scanEngine m.2.2).map (fun cs => (⟨cs⟩ : String))
      charset := (scanCharset m.2.2).map (fun cs => (⟨cs⟩ : String))
      comment := (scanTableComment m.2.2).map (fun cs => (⟨cs⟩ : String)) })

/-- The `tableMap` construction of `parseDirectory` (lines 61–64): a
`Map.set` loop over the parsed tables keyed by `shortName`
(last-write-wins). -/
def buildTableMap (tables : List TableSchema) : List (String × TableSchema) :=
  tables.foldl (fun m t => recordSet m t.shortName t) []

/-- The `SchemaIndex` value returned by `parseDirectory` (line 66), given
the tables parsed from the directory's SQL files. -/
def mkSchemaIndex (tables : List TableSchema) : SchemaIndex :=
  { tables := tables, tableMap := buildTableMap tables }

end SqlSchemaParser

/-! ## Schema lookup tool (`src/tools/schema.ts`) -/

/-- Input shape of `lookupSchema` (`{ tableName?, component?, listAll? }`).
JavaScript truthiness guards the three branches; an absent field is
`undefined` (here `none` / `false`).  An empty-string `tableName` or
`component` is falsy in JavaScript and behaves like an absent field; the
claims only involve nonempty names, where `Option` matching is exact. -/
structure LookupSchemaInput where
  tableName : Option String := none
  component : Option String := none
  listAll : Bool := false
deriving DecidableEq, Repr

/-- Return sites of `lookupSchema`, one constructor per distinguishable
formatted string the source returns:
`schemaOf t` stands for `formatTableSchema(t)` (returned both on an exact
`tableMap` hit, line 79, and on a unique partial match, line 87 — the two
produce the same string, hence one constructor);
`multipleMatches q names` for the `Multiple tables match ...` listing of
the matches' qualified names (line 91);
`tableNotFound q` for the `Table ... not found in schema.` string (line 94);
`listAllResult` for `formatSchemaList(schema)` (line 71);
`componentTables c ts` for the `Tables for ...` listing (lines 109–115);
`componentNotFound c` for the `No tables found for component ...` string
(line 106); and `usage` for the fallback prompt (line 118). -/
inductive LookupSchemaResult where
  | schemaOf (t : TableSchema)
  | multipleMatches (tableName : String) (names : List String)
  | tableNotFound (tableName : String)
  | listAllResult
  | componentTables (component : String) (tables : List TableSchema)
  | componentNotFound (component : String)
  | usage
deriving DecidableEq, Repr

/-- JavaScript bracket indexing `schema.tableMap[key]` as executed on the
values that actually reach `lookupSchema`: `tableMap` is either the `Map`
built by `parseDirectory` (`sql-schema-parser.ts` line 36 declares
`tableMap: Map<string, TableSchema>`) or its JSON round-trip through the
schema cache (`index.ts` lines 76 and 91).  Property access on a `Map`
object reads object properties, never the Map's entries, so it yields
`undefined` for every table key; and `JSON.stringify` serialises a `Map` as
`{}`, so the reloaded cache object has no own properties either.  (Keys that
collide with `Map.prototype` members, e.g. `"get"`, would yield functions,
not `TableSchema` values; no Joomla table name does.)  Entry lookup proper
is `recordGet`. -/
def jsMapBracketGet (_m : List (String × TableSchema)) (_k : String) :
    Option TableSchema := none

/-- Embedding of `lookupSchema` (`schema.ts` lines 66–119).  The
`matches.length === 1 / > 1 / 0` cascade is rendered as a match on the
filtered list. -/
def lookupSchema (schema : SchemaIndex) (input : LookupSchemaInput) :
    LookupSchemaResult :=
  if input.listAll then .listAllResult
  else
    match input.tableName with
    | some tn =>
      let normalised := SqlSchemaParser.stripTablePrefix tn
      match jsMapBracketGet schema.tableMap normalised with
      | some t => .schemaOf t
      | none =>
        let found := schema.tables.filter (fun t =>
          jsIncludes t.shortName normalised || jsIncludes t.name tn)
        match found with
        | [t] => .schemaOf t
        | [] => .tableNotFound tn
        | _ => .multipleMatches tn (found.map (·.name))
    | none =>
      match input.component with
      | some comp =>
        let compName := if jsStartsWith comp "com_" then ⟨comp.data.drop 4⟩ else comp
        let found := schema.tables.filter (fun t =>
          jsStartsWith t.shortName (compName ++ "_") || t.shortName == compName)
        if found.isEmpty then .componentNotFound comp
        else .componentTables comp found
      | none => .usage

/-! ## PHP class index data model (`src/parser/php-parser.ts`,
`src/parser/index-builder.ts`) -/

/-- Parameter record of `php-parser.ts` (`ParsedParameter`). -/
structure ParsedParameter where
  name : String
  type : Option String := none
  defaultValue : Option String := none
  isVariadic : Bool := false
  isReference : Bool := false
deriving DecidableEq, Repr

/-- Visibility union of `php-parser.ts` (`'public' | 'protected' |
'private'`); the latter two are Lean keywords and carry a `V` suffix here. -/
inductive Visibility where
  | public
  | protectedV
  | privateV
deriving DecidableEq, Repr

/-- Method record of `php-parser.ts` (`ParsedMethod`). -/
structure ParsedMethod where
  name : String
  visibility : Visibility := .public
  isStatic : Bool := false
  isAbstract : Bool := false
  parameters : List ParsedParameter := []
  returnType : Option String := none
  docblock : Option String := none
deriving DecidableEq, Repr

/-- Property record of `php-parser.ts` (`ParsedProperty`). -/
structure ParsedProperty where
  name : String
  visibility : Visibility := .public
  isStatic : Bool := false
  type : Option String := none
  defaultValue : Option String := none
  docblock : Option String := none
deriving DecidableEq, Repr

/-- Constant record of `php-parser.ts` (`ParsedConstant`). -/
structure ParsedConstant where
  name : String
  value : Option String := none
  visibility : Visibility := .public
  docblock : Option String := none
deriving DecidableEq, Repr

/-- Class record of `php-parser.ts` (`ParsedClass`).  The TypeScript field
names `namespace` and `extends` are Lean keywords and appear here as
`namespaceName` and `extendsName`. -/
structure ParsedClass where
  name : String
  namespaceName : String := ""
  fqn : String
  extendsName : Option String := none
  implementsNames : List String := []
  docblock : Option String := none
  methods : List ParsedMethod := []
  properties : List ParsedProperty := []
  constants : List ParsedConstant := []
  traits : List String := []
  isAbstract : Bool := false
  isInterface : Bool := false
  isTrait : Bool := false
  filePath : String := ""
deriving DecidableEq, Repr

/-- Event record of `index-builder.ts` (`EventInfo`); the TypeScript field
`class` is a Lean keyword and appears here as `cls`. -/
structure EventInfo where
  name : String
  cls : String
  parameters : List String := []
  description : Option String := none
deriving DecidableEq, Repr

/-- Index aggregate of `index-builder.ts` (`JoomlaIndex`); `namespaceMap`
and `eventMap` are the ordered-entries models of the `Record` objects. -/
structure JoomlaIndex where
  version : String := ""
  lastSync : String := ""
  commit : Option String := none
  classes : List ParsedClass := []
  namespaceMap : List (String × List String) := []
  eventMap : List (String × EventInfo) := []
deriving DecidableEq, Repr

namespace IndexBuilder

/-- Exclusion set of `buildEventMap` (lines 96–102). -/
def EVENT_EXCLUSIONS : List String :=
  ["EventManager", "EventManagerInterface",
   "EventListener", "EventListenerInterface",
   "EventSubscriber", "EventSubscriberInterface",
   "EventDispatcher", "EventDispatcherInterface",
   "EventAwareInterface", "EventAwareTrait"]

/-- Filter body of `buildEventMap` (lines 104–119): not excluded, namespace
contains a `\Event\` segment or ends with `\Event`, and the simple name ends
with `Event` or the extends clause ends with `Event` / contains
`AbstractEvent`. -/
def eventQualifies (cls : ParsedClass) : Bool :=
  if EVENT_EXCLUSIONS.contains cls.name then false
  else
    let nsHasEvent := jsIncludes cls.namespaceName "\\Event\\" ||
      jsEndsWith cls.namespaceName "\\Event"
    let extendsEvent :=
      (cls.extendsName.map (fun e => jsEndsWith e "Event")).getD false ||
      (cls.extendsName.map (fun e => jsIncludes e "AbstractEvent")).getD false
    let nameIsEvent := jsEndsWith cls.name "Event"
    nsHasEvent && (extendsEvent || nameIsEvent)

/-- Parameter rendering of `buildEventMap` (lines 123–129): `"<type> $<name>"`
or `"$<name>"`, with `" = <defaultValue>"` appended when a default exists.
JavaScript tests `p.type` and `p.defaultValue` for truthiness; an empty
string would be skipped there, and none of the claims involves one. -/
def renderEventParam (p : ParsedParameter) : String :=
  (match p.type with
   | some t => t ++ " $" ++ p.name
   | none => "$" ++ p.name) ++
  (match p.defaultValue with
   | some dv => " = " ++ dv
   | none => "")

/-- The `EventInfo` synthesized for one qualifying class (lines 121–136):
parameters come from the `__construct` method (exact, case-sensitive name
match), empty if there is none. -/
def mkEventInfo (cls : ParsedClass) : EventInfo :=
  let constructorMethod := cls.methods.find? (fun m => m.name == "__construct")
  { name := cls.name
    cls := cls.fqn
    parameters := ((constructorMethod.map (·.parameters)).getD []).map renderEventParam
    description := cls.docblock }

/-- Embedding of `buildEventMap` (lines 92–140): filter the qualifying
classes, then insert each `EventInfo` keyed by FQN with last-write-wins
object assignment. -/
def buildEventMap (classes : List ParsedClass) : List (String × EventInfo) :=
  (classes.filter eventQualifies).foldl
    (fun m cls => recordSet m cls.fqn (mkEventInfo cls)) []

end IndexBuilder

/-! ## Event listing tool (`src/tools/list-events.ts`) -/

/-- Input of `listEvents` (`ListEventsInput`); the TypeScript field
`namespace` is a Lean keyword and appears here as `namespaceFilter`.  An
absent `limit` is `undefined` and takes the destructuring default 30; the
`summary` field only affects formatting and is not part of `listEvents`.
JavaScript truthiness makes an empty-string `filter`/`namespace` behave as
absent; filtering by the empty string is the identity (every string includes
`""`), so the `Option` rendering is extensionally faithful. -/
structure ListEventsInput where
  filter : Option String := none
  namespaceFilter : Option String := none
  limit : Option Nat := none
deriving DecidableEq, Repr

/-- Result of `listEvents` (`ListEventsResult`). -/
structure ListEventsResult where
  events : List EventInfo
  total : Nat
  filtered : Nat
deriving DecidableEq, Repr

/-- Embedding of `listEvents` (`list-events.ts` lines 16–45). -/
def listEvents (index : JoomlaIndex) (input : ListEventsInput) : ListEventsResult :=
  let limit := input.limit.getD 30
  let effectiveLimit := Nat.min (Nat.max 1 limit) 100
  let events0 : List EventInfo := objectValues index.eventMap
  let total := events0.length
  let events1 : List EventInfo :=
    match input.namespaceFilter with
    | some ns =>
      let nsLower := lowerStr ns
      events0.filter (fun e => jsIncludes (lowerStr e.cls) nsLower)
    | none => events0
  let events2 : List EventInfo :=
    match input.filter with
    | some f =>
      let filterLower := lowerStr f
      events1.filter (fun e =>
        jsIncludes (lowerStr e.name) filterLower ||
        jsIncludes (lowerStr e.cls) filterLower ||
        ((e.description.map (fun d => jsIncludes (lowerStr d) filterLower)).getD false))
    | none => events1
  { events := events2.take effectiveLimit
    total := total
    filtered := events2.length }

/-! ## Search tool (`src/tools/search.ts`) -/

/-- Type filter union of `SearchInput.type`
(`'class' | 'method' | 'constant' | 'property' | 'all'`); `class` is a Lean
keyword and appears here as `cls`. -/
inductive SearchType where
  | cls
  | method
  | constant
  | property
  | all
deriving DecidableEq, Repr

/-- Input of `search` (`SearchInput`); absent `type` and `limit` take the
destructuring defaults `'all'` and 10. -/
structure SearchInput where
  query : String
  type : Option SearchType := none
  limit : Option Nat := none
deriving DecidableEq, Repr

/-- Result row of `search` (`SearchResult`). -/
structure SearchResult where
  type : SearchType
  name : String
  fqn : String
  context : Option String := none
  docblock : Option String := none
  signature : Option String := none
deriving DecidableEq, Repr

/-- Output of `search` (`SearchOutput`). -/
structure SearchOutput where
  query : String
  results : List SearchResult
  total : Nat
deriving DecidableEq, Repr

/-- JavaScript `String.prototype.split(sep)` for a one-character separator,
empty pieces included. -/
def splitOnCharAux (sep : Char) : List Char → List Char → List (List Char) → List (List Char)
  | [], cur, acc => (cur.reverse :: acc).reverse
  | c :: rest, cur, acc =>
    if c == sep then splitOnCharAux sep rest [] (cur.reverse :: acc)
    else splitOnCharAux sep rest (c :: cur) acc

/-- Docblock cleanup step `line.replace(/^\s*\*\s?/, '')`: the pattern needs
a `*` after the leading whitespace run; it then also removes one following
whitespace character if present. -/
def stripDocLine (line : List Char) : List Char :=
  let afterWs := line.dropWhile jsIsSpace
  match afterWs with
  | '*' :: rest =>
    match rest with
    | c :: rest' => if jsIsSpace c then rest' else rest
    | [] => []
  | _ => line

/-- Docblock opening-marker removal `replace(/^\/\*\*\s*\n?/, '')`: when the
text starts with `/**`, the greedy `\s*` removes the whole following
whitespace run (the trailing `\n?` is then empty). -/
def stripDocOpen (cs : List Char) : List Char :=
  match cs with
  | '/' :: '*' :: '*' :: rest => rest.dropWhile jsIsSpace
  | _ => cs

/-- Docblock closing-marker removal `replace(/\n?\s*\*\/$/, '')`: the
leftmost match anchored at the end starts at the beginning of the maximal
whitespace run preceding a final `*/`. -/
def stripDocClose (cs : List Char) : List Char :=
  match cs.reverse with
  | '/' :: '*' :: rest => (rest.dropWhile jsIsSpace).reverse
  | _ => cs

/-- Embedding of `truncateDocblock` (`search.ts` lines 121–137): strip the
comment markers, unstar each line, join the lines with spaces, trim, and cap
at 100 characters with an ellipsis. -/
def truncateDocblock (docblock : Option String) : Option String :=
  docblock.map (fun d =>
    let cleaned :=
      trimL (List.intercalate [' ']
        (((splitOnCharAux '\n' (stripDocClose (stripDocOpen d.data)) [] []).map
          stripDocLine)))
    if cleaned.length > 100 then ⟨cleaned.take 100 ++ "...".data⟩
    else (⟨cleaned⟩ : String))

/-- Rendering of a `Visibility` back to its source string. -/
def visStr : Visibility → String
  | .public => "public"
  | .protectedV => "protected"
  | .privateV => "private"

/-- Embedding of `formatClassSignature` (`search.ts` lines 139–153). -/
def formatClassSignature (cls : ParsedClass) : String :=
  let ty := if cls.isInterface then "interface"
    else if cls.isTrait then "trait" else "class"
  let abs := if cls.isAbstract then "abstract " else ""
  abs ++ ty ++ " " ++ cls.name ++
  (match cls.extendsName with
   | some e => " extends " ++ e
   | none => "") ++
  (if cls.implementsNames.isEmpty then ""
   else " implements " ++ String.intercalate ", " cls.implementsNames)

/-- Embedding of the `formatMethodSignature` of `search.ts`
(lines 155–166). -/
def formatMethodSignatureS (m : ParsedMethod) : String :=
  let st := if m.isStatic then "static " else ""
  let ret := match m.returnType with
    | some r => ": " ++ r
    | none => ""
  let params := String.intercalate ", " (m.parameters.map (fun p =>
    (match p.type with
     | some t => t ++ " "
     | none => "") ++ "$" ++ p.name))
  visStr m.visibility ++ " " ++ st ++ "function " ++ m.name ++ "(" ++ params ++ ")" ++ ret

/-- Embedding of `formatPropertySignature` (`search.ts` lines 168–172). -/
def formatPropertySignature (p : ParsedProperty) : String :=
  let st := if p.isStatic then "static " else ""
  let ty := match p.type with
    | some t => t ++ " "
    | none => ""
  visStr p.visibility ++ " " ++ st ++ ty ++ "$" ++ p.name

/-- Collection loop of `search` (lines 31–97): one pass over the classes,
pushing a row for each class, method, constant, or property hit allowed by
the type filter, in source order. -/
def collectResults (classes : List ParsedClass) (searchTerm : String)
    (ty : SearchType) : List SearchResult :=
  classes.flatMap (fun cls =>
    (if (ty == .all || ty == .cls) &&
        (jsIncludes (lowerStr cls.name) searchTerm ||
         jsIncludes (lowerStr cls.fqn) searchTerm ||
         ((cls.docblock.map (fun d => jsIncludes (lowerStr d) searchTerm)).getD false)) then
      [{ type := SearchType.cls, name := cls.name, fqn := cls.fqn,
         docblock := truncateDocblock cls.docblock,
         signature := some (formatClassSignature cls) }]
    else []) ++
    (if ty == .all || ty == .method then
      cls.methods.flatMap (fun m =>
        if jsIncludes (lowerStr m.name) searchTerm ||
           ((m.docblock.map (fun d => jsIncludes (lowerStr d) searchTerm)).getD false) then
          [{ type := SearchType.method, name := m.name,
             fqn := cls.fqn ++ "::" ++ m.name ++ "()",
             context := some cls.fqn,
             docblock := truncateDocblock m.docblock,
             signature := some (formatMethodSignatureS m) }]
        else [])
    else []) ++
    (if ty == .all || ty == .constant then
      cls.constants.flatMap (fun c =>
        if jsIncludes (lowerStr c.name) searchTerm then
          [{ type := SearchType.constant, name := c.name,
             fqn := cls.fqn ++ "::" ++ c.name,
             context := some cls.fqn,
             signature := some (match c.value with
               | some v => c.name ++ " = " ++ v
               | none => c.name) }]
        else [])
    else []) ++
    (if ty == .all || ty == .property then
      cls.properties.flatMap (fun p =>
        if jsIncludes (lowerStr p.name) searchTerm then
          [{ type := SearchType.property, name := p.name,
             fqn := cls.fqn ++ "::$" ++ p.name,
             context := some cls.fqn,
             signature := some (formatPropertySignature p) }]
        else [])
    else []))

/-- Comparator of the relevance sort (`search.ts` lines 100–112): exact
name matches first, then prefix matches, then ascending name length.  It
compares the lexicographic rank (exact, starts, length), so it is a
consistent comparator in the ECMAScript sense. -/
def searchCmp (searchTerm : String) (a b : SearchResult) : Int :=
  let aExact := lowerStr a.name == searchTerm
  let bExact := lowerStr b.name == searchTerm
  if aExact && !bExact then -1
  else if !aExact && bExact then 1
  else
    let aStarts := jsStartsWith (lowerStr a.name) searchTerm
    let bStarts := jsStartsWith (lowerStr b.name) searchTerm
    if aStarts && !bStarts then -1
    else if !aStarts && bStarts then 1
    else (a.name.length : Int) - (b.name.length : Int)

/-- Stable insertion of an element into an already-sorted list: the element
goes before the first entry it is not strictly after. -/
def sortInsert {α : Type} (le : α → α → Bool) (a : α) : List α → List α
  | [] => [a]
  | b :: l => if le a b then a :: b :: l else b :: sortInsert le a l

/-- JavaScript `Array.prototype.sort(cmp)` for a consistent comparator: the
ECMAScript specification requires a stable sort whose result is ordered by
`cmp`, which determines the output uniquely; right-to-left insertion sort
(each earlier element placed before the first later element it is not
strictly after) computes exactly that permutation. -/
def jsStableSort {α : Type} (le : α → α → Bool) : List α → List α
  | [] => []
  | a :: l => sortInsert le a (jsStableSort le l)

/-- Embedding of `search` (`search.ts` lines 26–119). -/
def search (index : JoomlaIndex) (input : SearchInput) : SearchOutput :=
  let ty := input.type.getD .all
  let limit := input.limit.getD 10
  let searchTerm := lowerStr input.query
  let results := collectResults index.classes searchTerm ty
  let sorted := jsStableSort (fun a b => searchCmp searchTerm a b ≤ 0) results
  { query := input.query
    results := sorted.take limit
    total := sorted.length }

/-! ## Class lookup tool (`src/tools/lookup-class.ts`) -/

/-- Input of `lookupClass` (`LookupClassInput`); `summary` only affects
formatting.  JavaScript truthiness makes an empty-string `methodName`
behave as absent. -/
structure LookupClassInput where
  className : String
  methodName : Option String := none
deriving DecidableEq, Repr

/-- Result of `lookupClass` (`LookupClassResult`); the TypeScript field
`class` is a Lean keyword and appears here as `cls`. -/
structure LookupClassResult where
  found : Bool
  cls : Option ParsedClass := none
  method : Option ParsedMethod := none
  suggestions : Option (List String) := none
  message : String
deriving DecidableEq, Repr

/-- Inner row computation of `levenshteinDistance` (`lookup-class.ts` lines
303–315): produce row `i` of the matrix from row `i-1` (`prevRow`, starting
at column `j-1`) and the value just written at column `j-1` (`cur`). -/
def levRowGo (bc : Char) : List Char → List Nat → Nat → List Nat
  | [], _, _ => []
  | _ :: _, [], _ => []
  | ac :: as, diag :: restPrev, cur =>
    let up := restPrev.headD 0
    let v := if bc == ac then diag
      else Nat.min (Nat.min (diag + 1) (cur + 1)) (up + 1)
    v :: levRowGo bc as restPrev v

/-- Row iteration of `levenshteinDistance`: fold the rows for each character
of `b` over the initial row `[0..a.length]`. -/
def levRows (aChars : List Char) : List Char → List Nat → Nat → List Nat
  | [], prev, _ => prev
  | bc :: bs, prev, i => levRows aChars bs ((i + 1) :: levRowGo bc aChars prev (i + 1)) (i + 1)

/-- Embedding of `levenshteinDistance` (`lookup-class.ts` lines 292–318):
the classic dynamic-programming matrix; the result is
`matrix[b.length][a.length]`, the last entry of the final row. -/
def levenshteinDistance (a b : String) : Nat :=
  (levRows a.data b.data (List.range (a.data.length + 1)) 0).getLastD 0

/-- Member-lookup tail of `lookupClass` (lines 63–94), entered once a class
has been selected. -/
def lookupClassWithMember (input : LookupClassInput) (m : ParsedClass) :
    LookupClassResult :=
  match input.methodName with
  | none =>
    { found := true, cls := some m, message := "Found " ++ m.fqn }
  | some mn =>
    match m.methods.find? (fun mm => lowerStr mm.name == lowerStr mn) with
    | some mm =>
      { found := true, cls := some m, method := some mm,
        message := "Found method " ++ mn ++ " in " ++ m.fqn }
    | none =>
      let methodSuggestions := (m.methods.filter (fun mm =>
        jsIncludes (lowerStr mm.name) (lowerStr mn))).map (·.name)
      { found := true, cls := some m,
        suggestions := if methodSuggestions.isEmpty then none else some methodSuggestions,
        message := "Method \"" ++ mn ++ "\" not found in " ++ m.fqn ++
          ". Available methods listed in class details." }

/-- Embedding of `lookupClass` (`lookup-class.ts` lines 19–95): exact FQN
match, then exact simple-name match, then substring match (unique hit
selects, several hits return the capped ambiguous result), then Levenshtein
suggestions. -/
def lookupClass (index : JoomlaIndex) (input : LookupClassInput) :
    LookupClassResult :=
  let searchTerm := lowerStr input.className
  let matched :=
    (index.classes.find? (fun c => lowerStr c.fqn == searchTerm)) <|>
    (index.classes.find? (fun c => lowerStr c.name == searchTerm))
  match matched with
  | some m => lookupClassWithMember input m
  | none =>
    let subMatches := index.classes.filter (fun c =>
      jsIncludes (lowerStr c.name) searchTerm ||
      jsIncludes (lowerStr c.fqn) searchTerm)
    match subMatches with
    | [m] => lookupClassWithMember input m
    | [] =>
      let suggestions := ((index.classes.filter (fun c =>
        levenshteinDistance (lowerStr c.name) searchTerm ≤ 3)).take 5).map (·.fqn)
      { found := false,
        suggestions := if suggestions.isEmpty then none else some suggestions,
        message := "Class \"" ++ input.className ++ "\" not found in Joomla 6 API." }
    | _ =>
      { found := false,
        suggestions := some ((subMatches.take 10).map (·.fqn)),
        message := "Multiple matches found for \"" ++ input.className ++
          "\". Did you mean one of these?" }

/-! ## Response truncation (`src/tools/response-utils.ts`) -/

/-- Notice appended by `truncateResponse` when a cut occurs (line 27). -/
def TRUNCATION_NOTICE : String :=
  "\n\n---\n*Response truncated. Use filters or parameters to narrow results.*"

/-- Fold of JavaScript `lastIndexOf` over a scanned prefix: the greatest
index holding `c`, else the accumulator. -/
def lastIdxAux (c : Char) : List Char → Nat → Int → Int
  | [], _, best => best
  | x :: xs, i, best => lastIdxAux c xs (i + 1) (if x == c then Int.ofNat i else best)

/-- JavaScript `text.lastIndexOf(c, pos)`: the greatest index `≤ pos`
holding `c`, or `-1`. -/
def jsLastIndexOf (c : Char) (text : String) (pos : Nat) : Int :=
  lastIdxAux c (text.data.take (pos + 1)) 0 (-1)

/-- Embedding of `truncateResponse` (`response-utils.ts` lines 20–28):
return short texts unchanged; otherwise cut at the last newline at or before
`maxChars` when its index is positive, else at exactly `maxChars`, and
append the truncation notice. -/
def truncateResponse (text : String) (maxChars : Nat := 50000) : String :=
  if text.length ≤ maxChars then text
  else
    let cutoff := jsLastIndexOf '\n' text maxChars
    let truncated : String :=
      if 0 < cutoff then ⟨text.data.take cutoff.toNat⟩
      else ⟨text.data.take maxChars⟩
    truncated ++ TRUNCATION_NOTICE

/-! ## Supporting lemmas -/

/-- Stable insertion adds exactly one element. -/
theorem length_sortInsert {α : Type} (le : α → α → Bool) (a : α) (l : List α) :
    (sortInsert le a l).length = l.length + 1 := by
  induction l with
  | nil => rfl
  | cons b l ih =>
    by_cases h : le a b = true
    · simp [sortInsert, h]
    · simp [sortInsert, h, ih]

/-- Sorting preserves length. -/
theorem length_jsStableSort {α : Type} (le : α → α → Bool) (l : List α) :
    (jsStableSort le l).length = l.length := by
  induction l with
  | nil => rfl
  | cons a l ih => simp [jsStableSort, length_sortInsert, ih]

/-- When a filter keeps exactly one element, `find?` returns it. -/
theorem find?_of_filter_eq_singleton {α : Type} {p : α → Bool} {l : List α} {c : α}
    (h : l.filter p = [c]) : l.find? p = some c := by
  induction l with
  | nil => simp at h
  | cons x xs ih =>
    by_cases hx : p x = true
    · rw [List.filter_cons_of_pos hx] at h
      obtain ⟨h1, _⟩ := List.cons_eq_cons.mp h
      rw [List.find?_cons_of_pos _ hx, h1]
    · rw [List.filter_cons_of_neg hx] at h
      rw [List.find?_cons_of_neg _ hx]
      exact ih h

/-- When every element of a prefix fails the predicate and the next element
satisfies it, `find?` returns that element. -/
theorem find?_append_first {α : Type} {p : α → Bool} (pre post : List α) (c : α)
    (hpre : ∀ d ∈ pre, p d = false) (hc : p c = true) :
    (pre ++ c :: post).find? p = some c := by
  induction pre with
  | nil => simpa using List.find?_cons_of_pos post hc
  | cons x xs ih =>
    have hx : p x = false := hpre x (by simp)
    rw [List.cons_append, List.find?_cons_of_neg _ (by simp [hx])]
    exact ih (fun d hd => hpre d (by simp [hd]))

/-- A filter by `p` sees through a preliminary filter by any weaker
predicate `q`. -/
theorem filter_filter_of_imp {α : Type} {p q : α → Bool} (l : List α)
    (h : ∀ a, p a = true → q a = true) :
    (l.filter q).filter p = l.filter p := by
  induction l with
  | nil => rfl
  | cons x xs ih =>
    by_cases hq : q x = true
    · by_cases hp : p x = true
      · simp [List.filter_cons_of_pos hq, List.filter_cons_of_pos hp, ih]
      · simp [List.filter_cons_of_pos hq, List.filter_cons_of_neg hp, ih]
    · have hp : ¬p x = true := fun hpx => hq (h x hpx)
      rw [List.filter_cons_of_neg hq, List.filter_cons_of_neg hp, ih]

/-- Last occurrence index of a character in a list, if any. -/
def lastOcc (c : Char) : List Char → Option Nat
  | [] => none
  | x :: xs =>
    match lastOcc c xs with
    | some j => some (j + 1)
    | none => if x == c then some 0 else none

/-- The `lastIdxAux` fold computes the last occurrence, offset by the start
index, falling back to the accumulator. -/
theorem lastIdxAux_eq (c : Char) (cs : List Char) (i : Nat) (best : Int) :
    lastIdxAux c cs i best =
      match lastOcc c cs with
      | some j => Int.ofNat (i + j)
      | none => best := by
  induction cs generalizing i best with
  | nil => rfl
  | cons x xs ih =>
    rw [lastIdxAux, ih]
    cases hx : lastOcc c xs with
    | some j =>
      have hcons : lastOcc c (x :: xs) = some (j + 1) := by rw [lastOcc, hx]
      rw [hcons]
      show Int.ofNat (i + 1 + j) = Int.ofNat (i + (j + 1))
      congr 1
      omega
    | none =>
      cases hxc : x == c with
      | true =>
        have hcons : lastOcc c (x :: xs) = some 0 := by
          rw [lastOcc, hx]
          simp [hxc]
        rw [hcons]
        simp
      | false =>
        have hcons : lastOcc c (x :: xs) = none := by
          rw [lastOcc, hx]
          simp [hxc]
        rw [hcons]
        simp

/-- The last occurrence is a real occurrence inside the list. -/
theorem lastOcc_spec {c : Char} {cs : List Char} {j : Nat}
    (h : lastOcc c cs = some j) : cs[j]? = some c ∧ j < cs.length := by
  induction cs generalizing j with
  | nil => simp [lastOcc] at h
  | cons x xs ih =>
    rw [lastOcc] at h
    cases hx : lastOcc c xs with
    | some j' =>
      rw [hx] at h
      simp only [Option.some.injEq] at h
      subst h
      obtain ⟨h1, h2⟩ := ih hx
      constructor
      · simpa using h1
      · simpa using h2
    | none =>
      rw [hx] at h
      cases hxc : x == c with
      | true =>
        simp only [hxc, if_true] at h
        simp only [Option.some.injEq] at h
        subst h
        refine ⟨?_, by simp⟩
        simpa using (beq_iff_eq.mp hxc)
      | false =>
        simp [hxc] at h

/-- No occurrence can exceed the last occurrence. -/
theorem lastOcc_ge {c : Char} {cs : List Char} {i : Nat}
    (h : cs[i]? = some c) : ∃ j, lastOcc c cs = some j ∧ i ≤ j := by
  induction cs generalizing i with
  | nil => simp at h
  | cons x xs ih =>
    cases i with
    | zero =>
      simp at h
      cases hx : lastOcc c xs with
      | some j => exact ⟨j + 1, by rw [lastOcc, hx], by omega⟩
      | none =>
        refine ⟨0, ?_, le_refl 0⟩
        rw [lastOcc, hx]
        simp [h]
    | succ i' =>
      simp at h
      obtain ⟨j', hj', hij'⟩ := ih h
      exact ⟨j' + 1, by rw [lastOcc, hj'], by omega⟩

/-- Prefix tests decompose over appended patterns. -/
theorem startsWithL_append (p q cs : List Char) :
    startsWithL cs (p ++ q) = (startsWithL cs p && startsWithL (cs.drop p.length) q) := by
  induction p generalizing cs with
  | nil => simp [startsWithL]
  | cons a as ih =>
    cases cs with
    | nil => cases q <;> simp [startsWithL]
    | cons c cs' => simp [startsWithL, ih, Bool.and_assoc]

/-! ## Claim theorems -/

/-- Fixture table `#__content` for the schema-lookup claims. -/
def contentTable : TableSchema :=
  { name := "#__content", shortName := "content", columns := [], indexes := [],
    engine := none, charset := none, comment := none }

/-- Fixture table `#__contentitem`, whose names contain those of
`#__content` as substrings. -/
def contentitemTable : TableSchema :=
  { name := "#__contentitem", shortName := "contentitem", columns := [], indexes := [],
    engine := none, charset := none, comment := none }

/-- The `SchemaIndex` that `parseDirectory` builds over the two fixture
tables. -/
def demoSchemaIndex : SchemaIndex :=
  SqlSchemaParser.mkSchemaIndex [contentTable, contentitemTable]

/-- C1: the exact `tableMap` lookup of `lookupSchema` can never hit.  The
map built by `parseDirectory` does hold the key `content` (first conjunct,
via `Map.prototype.get` semantics), yet `lookupSchema` for `content` reads
the map with JavaScript bracket indexing — property access on a `Map`, which
yields `undefined` — so it falls through to the substring fallback and
returns the ambiguous two-table list instead of the `#__content` schema that
the claim's exact-match-first contract demands. -/
theorem c1_exactLookupDeadCode :
    recordGet demoSchemaIndex.tableMap "content" = some contentTable ∧
    lookupSchema demoSchemaIndex { tableName := some "content" } =
      LookupSchemaResult.multipleMatches "content" ["#__content", "#__contentitem"] := by
  decide

/-- Scenario A input SQL of the specification. -/
def sqlScenarioA : String := "CREATE TABLE `#__content` (`id` int unsigned NOT NULL AUTO_INCREMENT, `title` varchar(255) NOT NULL DEFAULT '', PRIMARY KEY (`id`)) ENGINE=InnoDB DEFAULT CHARSET=utf8mb4;"

/-- C2: evaluation of `parseSql` on the Scenario A statement.  The lazy body
group of `createTableRegex` stops at the first `)` — the one closing
`varchar(255)` — so the `NOT NULL DEFAULT ''` of `title` and the
`PRIMARY KEY` clause land in the suffix: `title` parses with type `varchar`,
`nullable = true` and no default, and no index at all is produced, against
the claim's 2 fully-parsed columns and 1 PRIMARY index. -/
theorem c2_scenarioA_parse :
    SqlSchemaParser.parseSql sqlScenarioA =
      [{ name := "#__content", shortName := "content",
         columns := [
           { name := "id", type := "int unsigned", nullable := false,
             defaultValue := none, autoIncrement := true, comment := none },
           { name := "title", type := "varchar", nullable := true,
             defaultValue := none, autoIncrement := false, comment := none }],
         indexes := [], engine := some "InnoDB", charset := some "utf8mb4",
         comment := none }] := by
  decide

/-- C5: evaluation of `parseIndex` on the claim's key definition.  The
`([^)]+)` capture of the KEY regex stops at the first `)`, so it captures
`alias(191` — the size qualifier never reaches the `\(\d+\)` stripping of
`parseIndexColumns` (which needs a closing parenthesis) and the produced
column is the mangled `alias(191`, not the claim's `alias`. -/
theorem c5_sizeQualifierNotStripped :
    SqlSchemaParser.parseIndex ("KEY idx_alias (alias(191))".data) =
      some { name := "idx_alias", type := IndexType.INDEX,
             columns := ["alias(191"] } := by
  decide

/-- C7 counterexample: stripping the placeholder prefix is not idempotent —
on `#__#__a` the first strip exposes a second placeholder, which a second
strip removes as well. -/
theorem c7_counterexample :
    SqlSchemaParser.stripTablePrefix (SqlSchemaParser.stripTablePrefix "#__#__a") ≠
      SqlSchemaParser.stripTablePrefix "#__#__a" := by
  decide

/-- C7 amended: on every qualified table name that does not begin with a
doubled placeholder `#__#__`, stripping the placeholder prefix twice yields
the same string as stripping it once. -/
theorem c7_strip_idempotent_amended (s : String)
    (h : jsStartsWith s "#__#__" = false) :
    SqlSchemaParser.stripTablePrefix (SqlSchemaParser.stripTablePrefix s) =
      SqlSchemaParser.stripTablePrefix s := by
  unfold SqlSchemaParser.stripTablePrefix
  by_cases hp : jsStartsWith s "#__" = true
  · have hsplit : jsStartsWith s "#__#__" =
        (startsWithL s.data "#__".data && startsWithL (s.data.drop 3) "#__".data) := by
      have hdecomp : "#__#__".data = "#__".data ++ "#__".data := rfl
      rw [jsStartsWith, hdecomp, startsWithL_append]
      rfl
    have hrest : startsWithL (s.data.drop 3) "#__".data = false := by
      rw [hsplit] at h
      rw [jsStartsWith] at hp
      simpa [hp] using h
    have hrest' : jsStartsWith (⟨s.data.drop 3⟩ : String) "#__" = false := hrest
    simp [hp, hrest']
  · simp [hp]

/-- C7 witness: the amended idempotence applied at the concrete qualified
name `#__content`. -/
theorem c7_witness :
    jsStartsWith "#__content" "#__#__" = false ∧
    SqlSchemaParser.stripTablePrefix (SqlSchemaParser.stripTablePrefix "#__content") =
      SqlSchemaParser.stripTablePrefix "#__content" :=
  ⟨by decide, c7_strip_idempotent_amended "#__content" (by decide)⟩

/-- Claim-side predicate for the `listEvents` namespace filter: the filter
is a case-insensitive substring of the event's class. -/
def eventPassesNamespace : Option String → EventInfo → Bool
  | none, _ => true
  | some ns, e => jsIncludes (lowerStr e.cls) (lowerStr ns)

/-- Claim-side predicate for the `listEvents` text filter: the filter is a
case-insensitive substring of the event's name, class, or description. -/
def eventPassesFilter : Option String → EventInfo → Bool
  | none, _ => true
  | some f, e =>
    jsIncludes (lowerStr e.name) (lowerStr f) ||
    jsIncludes (lowerStr e.cls) (lowerStr f) ||
    ((e.description.map (fun d => jsIncludes (lowerStr d) (lowerStr f))).getD false)

/-- Fixture event for the C3 counterexample. -/
def eventFixture (i : Nat) : EventInfo :=
  { name := "E" ++ toString i, cls := "C" ++ toString i }

/-- Index fixture whose event map holds 31 events. -/
def idx31 : JoomlaIndex :=
  { eventMap := (List.range 31).map (fun i => ("e" ++ toString i, eventFixture i)) }

/-- C3 counterexample: on an event map with 31 entries and no filters,
`listEvents` returns only 30 events — not all the values of the event map
as the claim states — because the result is capped at the effective limit
(default 30). -/
theorem c3_counterexample :
    (listEvents idx31 {}).events.length = 30 ∧
    (objectValues idx31.eventMap).length = 31 ∧
    (listEvents idx31 {}).events ≠ objectValues idx31.eventMap := by
  decide

/-- C3 amended: `listEvents` reports the unfiltered total and the count of
the eventMap values passing both case-insensitive substring filters, and
returns those filtered values capped at the effective limit — the requested
limit (default 30) clamped between 1 and 100. -/
theorem c3_listEvents_amended (idx : JoomlaIndex) (input : ListEventsInput) :
    (listEvents idx input).total = (objectValues idx.eventMap).length ∧
    (listEvents idx input).filtered =
      ((objectValues idx.eventMap).filter (fun e =>
        eventPassesFilter input.filter e && eventPassesNamespace input.namespaceFilter e)).length ∧
    (listEvents idx input).events =
      ((objectValues idx.eventMap).filter (fun e =>
        eventPassesFilter input.filter e && eventPassesNamespace input.namespaceFilter e)).take
        (Nat.min (Nat.max 1 (input.limit.getD 30)) 100) := by
  obtain ⟨f, ns, limit⟩ := input
  cases f with
  | none =>
    cases ns with
    | none => simp [listEvents, eventPassesFilter, eventPassesNamespace]
    | some ns => simp [listEvents, eventPassesFilter, eventPassesNamespace]
  | some f =>
    cases ns with
    | none => simp [listEvents, eventPassesFilter, eventPassesNamespace]
    | some ns =>
      simp [listEvents, eventPassesFilter, eventPassesNamespace, List.filter_filter]

/-- C4: when exactly one declaration's FQN equals the query
case-insensitively, `lookupClass` selects it as the unique found result —
the exact-FQN pass precedes the substring pass, so other declarations whose
names or FQNs merely contain the query cannot interfere. -/
theorem c4_exact_fqn_precedence (idx : JoomlaIndex) (q : String) (c : ParsedClass)
    (h : idx.classes.filter (fun d => lowerStr d.fqn == lowerStr q) = [c]) :
    lookupClass idx { className := q } =
      { found := true, cls := some c, method := none, suggestions := none,
        message := "Found " ++ c.fqn } := by
  have hfind : idx.classes.find? (fun d => lowerStr d.fqn == lowerStr q) = some c :=
    find?_of_filter_eq_singleton h
  simp [lookupClass, hfind, lookupClassWithMember]

/-- Fixture class whose FQN strictly contains the C4 query. -/
def classTableX : ParsedClass := { name := "TableX", fqn := "NS\\TableX" }

/-- Fixture class whose FQN equals the C4 query case-insensitively. -/
def classTable : ParsedClass := { name := "Table", fqn := "NS\\Table" }

/-- Index fixture for the C4 witness. -/
def idxTwoClasses : JoomlaIndex := { classes := [classTableX, classTable] }

/-- C4 witness: the exact-match-precedence theorem applied at a concrete
index where `NS\TableX` substring-matches the query `ns\table` yet
`NS\Table` is the unique exact FQN match. -/
theorem c4_witness :
    idxTwoClasses.classes.filter
        (fun d => lowerStr d.fqn == lowerStr "ns\\table") = [classTable] ∧
    jsIncludes (lowerStr classTableX.fqn) (lowerStr "ns\\table") = true ∧
    lookupClass idxTwoClasses { className := "ns\\table" } =
      { found := true, cls := some classTable, method := none, suggestions := none,
        message := "Found " ++ classTable.fqn } :=
  ⟨by decide, by decide,
    c4_exact_fqn_precedence idxTwoClasses "ns\\table" classTable (by decide)⟩

/-- C10: when the declarations list splits as `pre ++ c :: post` with no
exact FQN match in `pre` and `c` an exact match, `lookupClass` returns `c`
found — the earliest match in list order — regardless of further matches in
`post`; in particular duplicated FQNs never produce an ambiguous result. -/
theorem c10_duplicate_fqn_first (idx : JoomlaIndex) (q : String) (c : ParsedClass)
    (pre post : List ParsedClass)
    (hsplit : idx.classes = pre ++ c :: post)
    (hpre : ∀ d ∈ pre, (lowerStr d.fqn == lowerStr q) = false)
    (hc : (lowerStr c.fqn == lowerStr q) = true) :
    lookupClass idx { className := q } =
      { found := true, cls := some c, method := none, suggestions := none,
        message := "Found " ++ c.fqn } := by
  have hfind : idx.classes.find? (fun d => lowerStr d.fqn == lowerStr q) = some c := by
    rw [hsplit]
    exact find?_append_first pre post c hpre hc
  simp [lookupClass, hfind, lookupClassWithMember]

/-- Fixture: first declaration of a duplicated FQN. -/
def classDupA : ParsedClass := { name := "Dup", fqn := "X\\Dup", filePath := "a.php" }

/-- Fixture: second declaration with the same FQN but another source file. -/
def classDupB : ParsedClass := { name := "Dup", fqn := "X\\Dup", filePath := "b.php" }

/-- Index fixture holding the duplicated FQN twice. -/
def idxDup : JoomlaIndex := { classes := [classDupA, classDupB] }

/-- C10 witness: on the index with two declarations of FQN `X\Dup`, lookup
of `x\dup` deterministically returns the first one. -/
theorem c10_witness :
    classDupA.fqn = classDupB.fqn ∧
    classDupA ≠ classDupB ∧
    lookupClass idxDup { className := "x\\dup" } =
      { found := true, cls := some classDupA, method := none, suggestions := none,
        message := "Found " ++ classDupA.fqn } :=
  ⟨by decide, by decide,
    c10_duplicate_fqn_first idxDup "x\\dup" classDupA [] [classDupB]
      rfl (by simp) (by decide)⟩

/-- C6: when the matches of a search exceed the requested limit `L`, the
returned rows are exactly `L` and the reported total is the true match
count. -/
theorem c6_search_total_vs_shown (idx : JoomlaIndex) (q : String)
    (tyOpt : Option SearchType) (L : Nat)
    (h : L < (collectResults idx.classes (lowerStr q) (tyOpt.getD .all)).length) :
    (search idx { query := q, type := tyOpt, limit := some L }).results.length = L ∧
    (search idx { query := q, type := tyOpt, limit := some L }).total =
      (collectResults idx.classes (lowerStr q) (tyOpt.getD .all)).length := by
  unfold search
  simp only [length_jsStableSort, List.length_take]
  constructor
  · simp only [Option.getD_some]
    omega
  · trivial

/-- Fixture classes matching the C6 witness query. -/
def classFoo1 : ParsedClass := { name := "Foo1", fqn := "A\\Foo1" }

/-- Second fixture class matching the C6 witness query. -/
def classFoo2 : ParsedClass := { name := "Foo2", fqn := "A\\Foo2" }

/-- Index fixture for the C6 witness. -/
def idxFoo : JoomlaIndex := { classes := [classFoo1, classFoo2] }

/-- C6 witness: two classes match `foo`, the limit is 1, and search returns
1 row while reporting a total of 2. -/
theorem c6_witness :
    1 < (collectResults idxFoo.classes (lowerStr "foo")
          ((none : Option SearchType).getD .all)).length ∧
    ((search idxFoo { query := "foo", type := none, limit := some 1 }).results.length = 1 ∧
     (search idxFoo { query := "foo", type := none, limit := some 1 }).total =
       (collectResults idxFoo.classes (lowerStr "foo")
         ((none : Option SearchType).getD .all)).length) :=
  ⟨by decide, c6_search_total_vs_shown idxFoo "foo" none 1 (by decide)⟩

/-- C9: a declaration named `EventDispatcher` never contributes to the event
map — building the map over any class list gives the same result as building
it with every `EventDispatcher` declaration removed, whatever their
namespaces, extends clauses, or other fields. -/
theorem c9_eventDispatcher_excluded (classes : List ParsedClass) :
    IndexBuilder.buildEventMap classes =
      IndexBuilder.buildEventMap
        (classes.filter (fun c => !(c.name == "EventDispatcher"))) := by
  unfold IndexBuilder.buildEventMap
  rw [filter_filter_of_imp classes]
  intro c h
  cases hn : c.name == "EventDispatcher" with
  | false => simp
  | true =>
    exfalso
    have hname : c.name = "EventDispatcher" := beq_iff_eq.mp hn
    unfold IndexBuilder.eventQualifies at h
    rw [hname] at h
    have hcont : IndexBuilder.EVENT_EXCLUSIONS.contains "EventDispatcher" = true := by
      decide
    simp only [hcont, if_true] at h
    exact absurd h (by simp)

/-- C8 counterexample: truncating the 8-character text `aaaaaaaa` to a
5-character budget returns the 5-character prefix with the notice appended —
77 characters in all — so the returned text exceeds the budget (and, the
text having no newline, the cut is not at a line boundary). -/
theorem c8_counterexample :
    5 < ("aaaaaaaa" : String).length ∧
    truncateResponse "aaaaaaaa" 5 = "aaaaa" ++ TRUNCATION_NOTICE ∧
    ¬ ((truncateResponse "aaaaaaaa" 5).length ≤ 5) := by
  decide

/-- Truncation branch of `truncateResponse` for over-budget text, written
without the intermediate `let` bindings. -/
theorem truncateResponse_of_gt (text : String) (maxChars : Nat)
    (h : maxChars < text.length) :
    truncateResponse text maxChars =
      (if 0 < jsLastIndexOf '\n' text maxChars then
         (⟨text.data.take (jsLastIndexOf '\n' text maxChars).toNat⟩ : String)
       else (⟨text.data.take maxChars⟩ : String)) ++ TRUNCATION_NOTICE := by
  unfold truncateResponse
  rw [if_neg (by omega)]

/-- C8 amended: a within-budget text is returned unchanged; an over-budget
text is cut to a prefix of at most `maxChars` characters and the truncation
notice is appended after that prefix (so the full returned string may exceed
the budget by the notice length).  The cut index is the last newline within
the budget whenever a newline exists there at a positive index — it is a
newline, positive, and no in-budget newline lies beyond it — and is exactly
`maxChars` otherwise. -/
theorem c8_truncate_amended (text : String) (maxChars : Nat) :
    (text.length ≤ maxChars → truncateResponse text maxChars = text) ∧
    (maxChars < text.length →
      ∃ k, k ≤ maxChars ∧
        truncateResponse text maxChars =
          (⟨text.data.take k⟩ : String) ++ TRUNCATION_NOTICE ∧
        ((∃ i, 0 < i ∧ i ≤ maxChars ∧ text.data[i]? = some '\n') →
          0 < k ∧ text.data[k]? = some '\n' ∧
          ∀ i, i ≤ maxChars → text.data[i]? = some '\n' → i ≤ k) ∧
        ((¬ ∃ i, 0 < i ∧ i ≤ maxChars ∧ text.data[i]? = some '\n') →
          k = maxChars)) := by
  constructor
  · intro h
    unfold truncateResponse
    rw [if_pos h]
  · intro h
    rw [truncateResponse_of_gt text maxChars h]
    have hcut : jsLastIndexOf '\n' text maxChars =
        match lastOcc '\n' (text.data.take (maxChars + 1)) with
        | some j => Int.ofNat j
        | none => -1 := by
      rw [jsLastIndexOf, lastIdxAux_eq]
      cases lastOcc '\n' (text.data.take (maxChars + 1)) <;> simp
    cases hocc : lastOcc '\n' (text.data.take (maxChars + 1)) with
    | some j =>
      have hcutj : jsLastIndexOf '\n' text maxChars = Int.ofNat j := by
        rw [hcut, hocc]
      obtain ⟨hget, hlen⟩ := lastOcc_spec hocc
      have hlen' : (text.data.take (maxChars + 1)).length ≤ maxChars + 1 := by
        simp [List.length_take]
      have hjle : j ≤ maxChars := by omega
      have hgetfull : text.data[j]? = some '\n' := by
        rw [List.getElem?_take, if_pos (by omega)] at hget
        exact hget
      have hmax : ∀ i, i ≤ maxChars → text.data[i]? = some '\n' → i ≤ j := by
        intro i hile higet
        have htake : (text.data.take (maxChars + 1))[i]? = some '\n' := by
          rw [List.getElem?_take, if_pos (by omega)]
          exact higet
        obtain ⟨j', hj', hij'⟩ := lastOcc_ge htake
        rw [hocc] at hj'
        have : j = j' := by injection hj'
        omega
      by_cases hj0 : 0 < j
      · refine ⟨j, hjle, ?_, fun _ => ⟨hj0, hgetfull, hmax⟩, ?_⟩
        · have hpos : 0 < Int.ofNat j := Int.ofNat_pos.mpr hj0
          rw [hcutj, if_pos hpos]
          simp
        · intro hno
          exact absurd ⟨j, hj0, hjle, hgetfull⟩ hno
      · have hj : j = 0 := by omega
        refine ⟨maxChars, le_refl _, ?_, ?_, fun _ => rfl⟩
        · rw [hcutj, if_neg (by simp [hj])]
        · rintro ⟨i, hi0, hile, higet⟩
          exfalso
          have := hmax i hile higet
          omega
    | none =>
      have hcutn : jsLastIndexOf '\n' text maxChars = -1 := by
        rw [hcut, hocc]
      refine ⟨maxChars, le_refl _, ?_, ?_, fun _ => rfl⟩
      · rw [hcutn, if_neg (by decide)]
      · rintro ⟨i, hi0, hile, higet⟩
        exfalso
        have htake : (text.data.take (maxChars + 1))[i]? = some '\n' := by
          rw [List.getElem?_take, if_pos (by omega)]
          exact higet
        obtain ⟨j', hj', _⟩ := lastOcc_ge htake
        rw [hocc] at hj'
        exact Option.noConfusion hj'


/-- C8 witness: the amended truncation contract applied to the concrete
over-budget text `ab\ncd\nef` with budget 5 (the cut lands on the last
in-budget newline, at index 5). -/
theorem c8_witness :
    5 < ("ab\ncd\nef" : String).length ∧
    (∃ k, k ≤ 5 ∧
      truncateResponse "ab\ncd\nef" 5 =
        (⟨("ab\ncd\nef" : String).data.take k⟩ : String) ++ TRUNCATION_NOTICE ∧
      ((∃ i, 0 < i ∧ i ≤ 5 ∧ ("ab\ncd\nef" : String).data[i]? = some '\n') →
        0 < k ∧ ("ab\ncd\nef" : String).data[k]? = some '\n' ∧
        ∀ i, i ≤ 5 → ("ab\ncd\nef" : String).data[i]? = some '\n' → i ≤ k) ∧
      ((¬ ∃ i, 0 < i ∧ i ≤ 5 ∧ ("ab\ncd\nef" : String).data[i]? = some '\n') →
        k = 5)) :=
  ⟨by decide, (c8_truncate_amended "ab\ncd\nef" 5).2 (by decide)⟩

